import Mathlib

/-!
Shallow embedding of the stock-management ledger core
(`src/stock_management/models.py`, `forms.py`, `views.py`).

Data model: `ProdMast` (product catalog rows), `StockTrans` (transaction
headers typed IN/OUT), `StockDetail` (line items referencing a product and
an owning transaction).  Stock is never stored: every read replays all
line items, negating the quantity when the owning transaction's type is
OUT (`StockDetailForm._get_current_stock`, `inventory_view`,
`api_inventory`, `api_check_stock` all run this same fold).

The transactional write path (`views.transaction_list`) is embedded as a
pure function on a `Ledger` value: Django form/formset validation runs
first (per-line, in submission order), then the view-level duplicate and
stock checks inside `transaction.atomic()`, and on success the header and
all line items are appended; any raised `ValidationError` rolls the atomic
block back, which the embedding models by returning the original ledger.
-/

namespace StockMgmt

/-- Transaction type from `StockTrans.TRANSACTION_TYPES`: `"IN"` or `"OUT"`. -/
inductive TransType where
  | IN : TransType
  | OUT : TransType
deriving DecidableEq

/-- A `ProdMast` row: integer primary key, unique display name, active flag.
Description and timestamps carry no ledger semantics and are omitted. -/
structure Product where
  id : Nat
  prodName : String
  isActive : Bool
deriving DecidableEq

/-- A `StockTrans` row: integer primary key and type.  Notes / creator tag
are free text with no semantics and are omitted. -/
structure StockTrans where
  id : Nat
  transactionType : TransType
deriving DecidableEq

/-- A `StockDetail` row: foreign keys to product and transaction, integer
quantity, optional unit price (modelled in minor units: only its sign is
ever consulted). -/
structure StockDetail where
  productId : Nat
  transactionId : Nat
  quantity : Int
  unitPrice : Option Int
deriving DecidableEq

/-- One candidate line of a `StockDetailFormSet` submission. -/
structure CandidateLine where
  productId : Nat
  quantity : Int
  unitPrice : Option Int
deriving DecidableEq

/-- The persistent store: the three tables. -/
structure Ledger where
  products : List Product
  transactions : List StockTrans
  details : List StockDetail
deriving DecidableEq

/-- The empty store. -/
def emptyLedger : Ledger := ⟨[], [], []⟩

/-- Dereference a detail's `transaction` foreign key and read its type
(`detail.transaction.transaction_type`). -/
def transactionTypeOf (ts : List StockTrans) (tid : Nat) : Option TransType :=
  (ts.find? (fun t => t.id == tid)).map (·.transactionType)

/-- Signed quantity of one line item, as computed in every replay loop:
`qty = detail.quantity; if detail.transaction.transaction_type == 'OUT': qty = -qty`. -/
def signedQuantity (ts : List StockTrans) (d : StockDetail) : Int :=
  if transactionTypeOf ts d.transactionId = some TransType.OUT then -d.quantity else d.quantity

/-- Stock replay for one product, as in `StockDetailForm._get_current_stock`
and `StockDetail.get_current_stock`: filter the line items by product and
accumulate the signed quantities into a counter starting at 0.
(`get_current_stock` additionally skips `detail == self`, but the record
being validated is never yet persisted when it runs, so the replayed set
is exactly the committed line items, as here.) -/
def currentStock (l : Ledger) (pid : Nat) : Int :=
  (l.details.filter (fun d => d.productId == pid)).foldl
    (fun acc d => acc + signedQuantity l.transactions d) 0

/-- Stock status thresholds shared by `inventory_view`, `api_inventory` and
`api_check_stock`. -/
inductive StockStatus where
  | outOfStock : StockStatus
  | lowStock : StockStatus
  | good : StockStatus
deriving DecidableEq

/-- Threshold logic: `out_of_stock` if quantity <= 0, `low_stock` if
quantity <= 10, else `good`. -/
def stockStatus (q : Int) : StockStatus :=
  if q ≤ 0 then StockStatus.outOfStock
  else if q ≤ 10 then StockStatus.lowStock
  else StockStatus.good

/-- One `inventory[product] += qty` step on the insertion-ordered
defaultdict, modelled as an association list keyed by product id. -/
def addToInv : List (Nat × Int) → Nat → Int → List (Nat × Int)
  | [], pid, q => [(pid, q)]
  | (k, v) :: rest, pid, q =>
      if k = pid then (k, v + q) :: rest else (k, v) :: addToInv rest pid q

/-- Read a defaultdict entry (missing key yields 0). -/
def invLookup (inv : List (Nat × Int)) (pid : Nat) : Int :=
  ((inv.find? (fun kv => kv.1 == pid)).map (·.2)).getD 0

/-- The grouping loop of `inventory_view` / `api_inventory`: one pass over
all line items, accumulating the signed quantity per product. -/
def buildInventory (l : Ledger) : List (Nat × Int) :=
  l.details.foldl (fun inv d => addToInv inv d.productId (signedQuantity l.transactions d)) []

/-- Product name lookup through a detail's `product` foreign key. -/
def productName (l : Ledger) (pid : Nat) : String :=
  ((l.products.find? (fun p => p.id == pid)).map (·.prodName)).getD ""

/-- One row of the materialized inventory (`product_id`, `product_name`,
`quantity`, `status` as in `api_inventory`). -/
structure InventoryEntry where
  productId : Nat
  prodName : String
  quantity : Int
  status : StockStatus
deriving DecidableEq

/-- Full inventory as materialized by `inventory_view` / `api_inventory`:
group all line items by product, attach the status, and sort by product
name (`inventory_list.sort(key=lambda x: x['product'].prod_name)`). -/
def fullInventory (l : Ledger) : List InventoryEntry :=
  ((buildInventory l).map (fun kv =>
      { productId := kv.1
        prodName := productName l kv.1
        quantity := kv.2
        status := stockStatus kv.2 })).mergeSort
    (fun a b => a.prodName ≤ b.prodName)

/-- The `api_check_stock` endpoint: 404 when no product has the id,
otherwise the replayed stock and its status. -/
def getProductStock (l : Ledger) (pid : Nat) : Option (Int × StockStatus) :=
  if l.products.any (fun p => p.id == pid) then
    some (currentStock l pid, stockStatus (currentStock l pid))
  else none

/-- Structured error taxonomy of the write paths (spec section 7). -/
inductive ErrorKind where
  | invalidName : ErrorKind
  | duplicateName : ErrorKind
  | emptyTransaction : ErrorKind
  | inactiveOrUnknownProduct : Nat → ErrorKind
  | invalidQuantity : ErrorKind
  | invalidPrice : ErrorKind
  | duplicateProduct : Nat → ErrorKind
  | insufficientStock : Nat → Int → Int → ErrorKind
deriving DecidableEq

/-- Membership test of a product id in the `StockDetailForm` product
queryset `ProdMast.objects.filter(is_active=True)`: an inactive or unknown
product is not a valid form choice. -/
def isActiveProduct (l : Ledger) (pid : Nat) : Bool :=
  l.products.any (fun p => p.id == pid && p.isActive)

/-- Negative-price test for `clean_unit_price` (`price < 0` rejected;
a missing price is accepted). -/
def priceNeg : Option Int → Bool
  | none => false
  | some p => p < 0

/-- Per-form validation of one candidate line, in Django's field order for
`StockDetailForm`: product must be a queryset member (active), quantity
must be positive (`clean_quantity`), price non-negative
(`clean_unit_price`), and for an OUT submission `StockDetailForm.clean`
compares the requested quantity against the replayed stock, reporting
available and requested amounts. -/
def validateLine (l : Ledger) (t : TransType) (c : CandidateLine) : Option ErrorKind :=
  if ¬ isActiveProduct l c.productId then some (ErrorKind.inactiveOrUnknownProduct c.productId)
  else if c.quantity ≤ 0 then some ErrorKind.invalidQuantity
  else if priceNeg c.unitPrice then some ErrorKind.invalidPrice
  else if t = TransType.OUT ∧ currentStock l c.productId < c.quantity then
    some (ErrorKind.insufficientStock c.productId (currentStock l c.productId) c.quantity)
  else none

/-- Formset validation: the first per-line error in submission order
(Django collects them all; the embedding keeps the first, which decides
validity). -/
def firstLineError (l : Ledger) (t : TransType) (lines : List CandidateLine) : Option ErrorKind :=
  lines.findSome? (validateLine l t)

/-- The view-level loop inside `transaction.atomic()`: per line in
submission order, reject a product already seen in this batch, and for an
OUT transaction re-run `StockDetail.validate_stock_availability` against
the committed line items (none of this batch is persisted yet, so the
baseline is the pre-transaction ledger). -/
def viewStage (l : Ledger) (t : TransType) : List CandidateLine → List Nat → Option ErrorKind
  | [], _ => none
  | c :: cs, seen =>
      if c.productId ∈ seen then some (ErrorKind.duplicateProduct c.productId)
      else if t = TransType.OUT ∧ currentStock l c.productId < c.quantity then
        some (ErrorKind.insufficientStock c.productId (currentStock l c.productId) c.quantity)
      else viewStage l t cs (c.productId :: seen)

/-- Fresh autoincrement primary key for a new transaction header. -/
def freshTransId (l : Ledger) : Nat :=
  (l.transactions.foldl (fun m t => max m t.id) 0) + 1

/-- Successful commit: append the header, then append every line item
referencing it (the save loop at the end of the atomic block). -/
def commitTrans (l : Ledger) (t : TransType) (lines : List CandidateLine) : Ledger :=
  { l with
    transactions := l.transactions ++ [⟨freshTransId l, t⟩]
    details := l.details ++ lines.map (fun c => ⟨c.productId, freshTransId l, c.quantity, c.unitPrice⟩) }

/-- The `transaction_list` POST path as one atomic operation: an empty
batch fails formset `validate_min`; a per-line formset error fails the
submission before anything is written; a view-stage error (duplicate
product, re-checked stock) raises inside `transaction.atomic()` and rolls
back; otherwise header and lines are committed together. -/
def createTransaction (l : Ledger) (t : TransType) (lines : List CandidateLine) :
    Except ErrorKind Ledger :=
  if lines.isEmpty then Except.error ErrorKind.emptyTransaction
  else
    match firstLineError l t lines with
    | some e => Except.error e
    | none =>
        match viewStage l t lines [] with
        | some e => Except.error e
        | none => Except.ok (commitTrans l t lines)

/-- Title-casing pass of Python `str.title()` over the character list:
an alphabetic character is uppercased when the previous character is not
alphabetic and lowercased otherwise; other characters pass through. -/
def titleGo : Bool → List Char → List Char
  | _, [] => []
  | prevAlpha, c :: cs =>
      (if c.isAlpha then (if prevAlpha then c.toLower else c.toUpper) else c)
        :: titleGo c.isAlpha cs

/-- Python `str.strip()` on the character list: drop leading and trailing
whitespace. -/
def stripChars (cs : List Char) : List Char :=
  ((cs.dropWhile Char.isWhitespace).reverse.dropWhile Char.isWhitespace).reverse

/-- Name normalization of `ProductForm.clean_prod_name` and
`ProdMast.clean`: `name.strip().title()`. -/
def normalizeName (raw : String) : String :=
  ⟨titleGo false (stripChars raw.data)⟩

/-- Python `str.lower()` on the character list, used for the
case-insensitive duplicate lookup (`prod_name__iexact`). -/
def lowerName (s : String) : String :=
  ⟨s.data.map Char.toLower⟩

/-- Fresh autoincrement primary key for a new product row. -/
def freshProdId (l : Ledger) : Nat :=
  (l.products.foldl (fun m p => max m p.id) 0) + 1

/-- The `product_list` POST path through `ProductForm.clean_prod_name`:
normalize, reject a normalized name shorter than 2 characters, reject a
case-insensitive duplicate (`prod_name__iexact`), else persist the row
with the normalized name. -/
def createProduct (l : Ledger) (raw : String) (active : Bool) : Except ErrorKind Ledger :=
  let name := normalizeName raw
  if name.length < 2 then Except.error ErrorKind.invalidName
  else if l.products.any (fun p => lowerName p.prodName == lowerName name) then
    Except.error ErrorKind.duplicateName
  else Except.ok { l with products := l.products ++ [⟨freshProdId l, name, active⟩] }

/-- The write operations of the application. -/
inductive Op where
  | newProduct : String → Bool → Op
  | newTransaction : TransType → List CandidateLine → Op

/-- Run one operation; a failed operation leaves the store unchanged
(form failures write nothing, and in-transaction failures roll back). -/
def runOp (l : Ledger) : Op → Ledger
  | Op.newProduct raw a =>
      match createProduct l raw a with
      | Except.ok l2 => l2
      | Except.error _ => l
  | Op.newTransaction t lines =>
      match createTransaction l t lines with
      | Except.ok l2 => l2
      | Except.error _ => l

/-- Run a sequence of operations from a starting store. -/
def runOps (l : Ledger) (ops : List Op) : Ledger :=
  ops.foldl runOp l

/-- A store state reachable from the empty store by the application's own
write operations. -/
def Reachable (l : Ledger) : Prop :=
  ∃ ops : List Op, runOps emptyLedger ops = l

/-- Foreign-key integrity of the `transaction` reference on line items
(enforced by the store). -/
def FKOk (l : Ledger) : Prop :=
  ∀ d ∈ l.details, ∃ tr ∈ l.transactions, tr.id = d.transactionId

/-- The `unique_together ['product', 'transaction']` constraint: no two
persisted line items agree on both foreign keys. -/
def UniquePairs (l : Ledger) : Prop :=
  l.details.Pairwise
    (fun d1 d2 => ¬ (d1.productId = d2.productId ∧ d1.transactionId = d2.transactionId))

/-- Stock non-negativity across the whole catalog. -/
def NonNeg (l : Ledger) : Prop :=
  ∀ pid : Nat, 0 ≤ currentStock l pid

/-- The bundle of store invariants carried through the reachability
induction. -/
def Inv (l : Ledger) : Prop :=
  FKOk l ∧ UniquePairs l ∧ NonNeg l

/-- Specification-side signed sum for a product, written exactly as the
spec phrases it: over all line items, quantity if the owning transaction's
type is IN, else minus the quantity (zero contribution from line items of
other products).  Compared against `currentStock`, which is translated
from the code. -/
def specSignedSum (l : Ledger) (pid : Nat) : Int :=
  (l.details.map (fun d =>
      if d.productId = pid then
        (if transactionTypeOf l.transactions d.transactionId = some TransType.IN then
          d.quantity else -d.quantity)
      else 0)).sum

/-- Net contribution of one candidate line to one product's stock. -/
def lineDelta (t : TransType) (pid : Nat) (c : CandidateLine) : Int :=
  if c.productId = pid then (if t = TransType.OUT then -c.quantity else c.quantity) else 0

/-- Net contribution of a whole batch to one product's stock. -/
def batchDelta (t : TransType) (lines : List CandidateLine) (pid : Nat) : Int :=
  (lines.map (lineDelta t pid)).sum

/-! Basic replay lemmas. -/

/-- Accumulating a mapped value into a running counter is summation. -/
theorem foldl_add_eq_sum (f : StockDetail → Int) (ds : List StockDetail) (a : Int) :
    ds.foldl (fun acc d => acc + f d) a = a + (ds.map f).sum := by
  induction ds generalizing a with
  | nil => simp
  | cons d ds ih => simp [ih, add_assoc]

/-- The replay loop of `currentStock` is the sum of the signed quantities
of the product's line items. -/
theorem currentStock_eq_sum (l : Ledger) (pid : Nat) :
    currentStock l pid =
      ((l.details.filter (fun d => d.productId == pid)).map (signedQuantity l.transactions)).sum := by
  simpa using foldl_add_eq_sum (signedQuantity l.transactions)
    (l.details.filter (fun d => d.productId == pid)) 0

/-- A line item whose transaction foreign key resolves has a transaction type. -/
theorem transactionTypeOf_of_fk (ts : List StockTrans) (tid : Nat)
    (h : ∃ tr ∈ ts, tr.id = tid) : ∃ ty, transactionTypeOf ts tid = some ty := by
  obtain ⟨tr, htr, hid⟩ := h
  have : (ts.find? (fun t => t.id == tid)).isSome := by
    rw [List.find?_isSome]
    exact ⟨tr, htr, by simp [hid]⟩
  obtain ⟨tr2, htr2⟩ := Option.isSome_iff_exists.mp this
  exact ⟨tr2.transactionType, by simp [transactionTypeOf, htr2]⟩

/-- With the foreign key resolved, negating exactly on OUT is the same as
keeping the quantity exactly on IN. -/
theorem signedQuantity_eq_spec (ts : List StockTrans) (d : StockDetail)
    (h : ∃ tr ∈ ts, tr.id = d.transactionId) :
    signedQuantity ts d =
      (if transactionTypeOf ts d.transactionId = some TransType.IN then d.quantity
        else -d.quantity) := by
  obtain ⟨ty, hty⟩ := transactionTypeOf_of_fk ts d.transactionId h
  cases ty <;> simp [signedQuantity, hty]

/-- Filtered signed replay equals the all-items sum with zero contributions
from other products. -/
theorem stock_spec_aux (ts : List StockTrans) (pid : Nat) :
    ∀ ds : List StockDetail, (∀ d ∈ ds, ∃ tr ∈ ts, tr.id = d.transactionId) →
      ((ds.filter (fun d => d.productId == pid)).map (signedQuantity ts)).sum =
        (ds.map (fun d =>
          if d.productId = pid then
            (if transactionTypeOf ts d.transactionId = some TransType.IN then
              d.quantity else -d.quantity)
          else 0)).sum := by
  intro ds
  induction ds with
  | nil => intro _; simp
  | cons d ds ih =>
      intro h
      have hd := h d (List.mem_cons_self d ds)
      have hds := fun x hx => h x (List.mem_cons_of_mem d hx)
      by_cases hp : d.productId = pid
      · simp [List.filter_cons, hp, ih hds, signedQuantity_eq_spec ts d hd]
      · simp [List.filter_cons, hp, ih hds]

/-! Concrete sample stores used to instantiate the hypotheses of the
claim theorems. -/

/-- An active catalog row. -/
def sampleProduct : Product := ⟨1, "Widget", true⟩

/-- A store holding one product with a single IN movement of 5 units. -/
def sampleLedger5 : Ledger :=
  ⟨[sampleProduct], [⟨1, TransType.IN⟩], [⟨1, 1, 5, none⟩]⟩

/-- C1: for every product, the derived current stock equals the sum over
all persisted line items referencing it of (quantity if the owning
transaction's type is IN, else minus the quantity); a product referenced
by no line item has current stock 0. -/
theorem c1_current_stock_is_signed_sum (l : Ledger) (hfk : FKOk l) (pid : Nat) :
    currentStock l pid = specSignedSum l pid ∧
      ((∀ d ∈ l.details, d.productId ≠ pid) → currentStock l pid = 0) := by
  constructor
  · rw [currentStock_eq_sum, specSignedSum]
    exact stock_spec_aux l.transactions pid l.details hfk
  · intro h
    rw [currentStock_eq_sum]
    have : l.details.filter (fun d => d.productId == pid) = [] := by
      rw [List.filter_eq_nil_iff]
      intro d hd
      simp [h d hd]
    simp [this]

/-- Witness for C1 at a concrete store. -/
theorem c1_witness :
    currentStock sampleLedger5 1 = specSignedSum sampleLedger5 1 ∧ currentStock sampleLedger5 2 = 0 := by
  constructor
  · exact (c1_current_stock_is_signed_sum sampleLedger5 (by unfold FKOk; decide) 1).1
  · exact (c1_current_stock_is_signed_sum sampleLedger5 (by unfold FKOk; decide) 2).2 (by decide)

/-- C9: the stock projection is invariant under any permutation of the
order in which the line items are replayed. -/
theorem c9_replay_order_invariant (l1 l2 : Ledger)
    (ht : l1.transactions = l2.transactions) (hd : l1.details.Perm l2.details) (pid : Nat) :
    currentStock l1 pid = currentStock l2 pid := by
  rw [currentStock_eq_sum, currentStock_eq_sum, ht]
  exact ((hd.filter (fun d => d.productId == pid)).map (signedQuantity l2.transactions)).sum_eq

/-- A store with two movements recorded in one order. -/
def sampleLedgerAB : Ledger :=
  ⟨[sampleProduct], [⟨1, TransType.IN⟩, ⟨2, TransType.OUT⟩], [⟨1, 1, 5, none⟩, ⟨1, 2, 2, none⟩]⟩

/-- The same store with the two movements replayed in the other order. -/
def sampleLedgerBA : Ledger :=
  ⟨[sampleProduct], [⟨1, TransType.IN⟩, ⟨2, TransType.OUT⟩], [⟨1, 2, 2, none⟩, ⟨1, 1, 5, none⟩]⟩

/-- Witness for C9 at a concrete pair of replay orders. -/
theorem c9_witness : currentStock sampleLedgerAB 1 = currentStock sampleLedgerBA 1 :=
  c9_replay_order_invariant sampleLedgerAB sampleLedgerBA rfl (by decide) 1

/-! Commit effect on the projection. -/

/-- A running maximum only grows. -/
theorem le_foldl_max (ts : List StockTrans) (a : Nat) :
    a ≤ ts.foldl (fun m t => max m t.id) a := by
  induction ts generalizing a with
  | nil => exact Nat.le_refl a
  | cons t ts ih => exact le_trans (le_max_left a t.id) (ih (max a t.id))

/-- Every member is bounded by the running maximum. -/
theorem mem_le_foldl_max (ts : List StockTrans) (a : Nat) (t : StockTrans) (ht : t ∈ ts) :
    t.id ≤ ts.foldl (fun m s => max m s.id) a := by
  induction ts generalizing a with
  | nil => cases ht
  | cons s ts ih =>
      rcases List.mem_cons.mp ht with h | h
      · subst h
        exact le_trans (le_max_right a t.id) (le_foldl_max ts (max a t.id))
      · exact ih (max a s.id) h

/-- Every persisted transaction id is smaller than the fresh autoincrement id. -/
theorem transId_lt_fresh (l : Ledger) (t : StockTrans) (ht : t ∈ l.transactions) :
    t.id < freshTransId l :=
  Nat.lt_succ_of_le (mem_le_foldl_max l.transactions 0 t ht)

/-- Appending a header does not change how an already-resolvable foreign
key dereferences. -/
theorem transactionTypeOf_append_old (l : Ledger) (nt : StockTrans) (tid : Nat)
    (h : ∃ tr ∈ l.transactions, tr.id = tid) :
    transactionTypeOf (l.transactions ++ [nt]) tid = transactionTypeOf l.transactions tid := by
  unfold transactionTypeOf
  rw [List.find?_append]
  obtain ⟨tr, htr, hid⟩ := h
  have hsome : (l.transactions.find? (fun t => t.id == tid)).isSome := by
    rw [List.find?_isSome]
    exact ⟨tr, htr, by simp [hid]⟩
  obtain ⟨tr2, htr2⟩ := Option.isSome_iff_exists.mp hsome
  simp [htr2]

/-- The freshly appended header is found by its own id. -/
theorem transactionTypeOf_fresh (l : Ledger) (nt : StockTrans)
    (h : ∀ tr ∈ l.transactions, tr.id ≠ nt.id) :
    transactionTypeOf (l.transactions ++ [nt]) nt.id = some nt.transactionType := by
  unfold transactionTypeOf
  rw [List.find?_append]
  have h1 : l.transactions.find? (fun t => t.id == nt.id) = none := by
    rw [List.find?_eq_none]
    intro tr htr
    simp [h tr htr]
  simp [h1]

/-- An old line item keeps its signed quantity after a header is appended. -/
theorem signedQuantity_append_old (l : Ledger) (nt : StockTrans) (d : StockDetail)
    (h : ∃ tr ∈ l.transactions, tr.id = d.transactionId) :
    signedQuantity (l.transactions ++ [nt]) d = signedQuantity l.transactions d := by
  unfold signedQuantity
  rw [transactionTypeOf_append_old l nt d.transactionId h]

/-- Signed sum of the freshly appended line items of one product equals
the batch contribution. -/
theorem newpart_sum (l : Ledger) (t : TransType) (pid : Nat) (lines : List CandidateLine) :
    (((lines.map (fun c =>
          (⟨c.productId, freshTransId l, c.quantity, c.unitPrice⟩ : StockDetail))).filter
        (fun d => d.productId == pid)).map
      (signedQuantity (l.transactions ++ [⟨freshTransId l, t⟩]))).sum =
      batchDelta t lines pid := by
  have hty : transactionTypeOf (l.transactions ++ [⟨freshTransId l, t⟩]) (freshTransId l) =
      some t := by
    have := transactionTypeOf_fresh l ⟨freshTransId l, t⟩
      (fun tr htr => Nat.ne_of_lt (transId_lt_fresh l tr htr))
    simpa using this
  induction lines with
  | nil => simp [batchDelta]
  | cons c cs ih =>
      by_cases hp : c.productId = pid
      · have hsq : signedQuantity (l.transactions ++ [⟨freshTransId l, t⟩])
            ⟨c.productId, freshTransId l, c.quantity, c.unitPrice⟩ =
            (if t = TransType.OUT then -c.quantity else c.quantity) := by
          unfold signedQuantity
          simp only [hty]
          cases t <;> simp
        simp [List.filter_cons, hp, batchDelta, lineDelta, hsq, ih, batchDelta] at *
        omega
      · simp [List.filter_cons, hp, batchDelta, lineDelta, ih, batchDelta] at *

/-- Committing a batch moves every product's stock by exactly the batch
contribution. -/
theorem currentStock_commit (l : Ledger) (t : TransType) (lines : List CandidateLine)
    (hfk : FKOk l) (pid : Nat) :
    currentStock (commitTrans l t lines) pid = currentStock l pid + batchDelta t lines pid := by
  rw [currentStock_eq_sum, currentStock_eq_sum]
  show ((((l.details ++ lines.map fun c =>
      (⟨c.productId, freshTransId l, c.quantity, c.unitPrice⟩ : StockDetail)).filter
        (fun d => d.productId == pid)).map
          (signedQuantity (l.transactions ++ [⟨freshTransId l, t⟩]))).sum) = _
  rw [List.filter_append, List.map_append, List.sum_append]
  have hold : ((l.details.filter (fun d => d.productId == pid)).map
      (signedQuantity (l.transactions ++ [⟨freshTransId l, t⟩]))).sum =
      ((l.details.filter (fun d => d.productId == pid)).map
        (signedQuantity l.transactions)).sum := by
    congr 1
    apply List.map_congr_left
    intro d hd
    exact signedQuantity_append_old l _ d (hfk d (List.mem_of_mem_filter hd))
  rw [hold, newpart_sum]

/-! Validation pipeline lemmas. -/

/-- Characterization of an accepted candidate line: active product,
positive quantity, non-negative price, and for an OUT submission enough
replayed stock. -/
theorem validateLine_none_iff (l : Ledger) (t : TransType) (c : CandidateLine) :
    validateLine l t c = none ↔
      isActiveProduct l c.productId = true ∧ 0 < c.quantity ∧
        priceNeg c.unitPrice = false ∧
        ¬ (t = TransType.OUT ∧ currentStock l c.productId < c.quantity) := by
  constructor
  · intro h
    unfold validateLine at h
    split_ifs at h with h1 h2 h3 h4
    refine ⟨h1, by omega, ?_, h4⟩
    simpa using h3
  · intro hR
    unfold validateLine
    rw [if_neg (not_not_intro hR.1), if_neg (by omega), if_neg (by simp [hR.2.2.1]),
      if_neg hR.2.2.2]

/-- Under all-lines-accepted formset validation, the view-level loop either
passes or reports a duplicated product. -/
theorem viewStage_none_or_dup (l : Ledger) (t : TransType) (lines : List CandidateLine)
    (hv : ∀ c ∈ lines, validateLine l t c = none) (seen : List Nat) :
    viewStage l t lines seen = none ∨
      ∃ pid, viewStage l t lines seen = some (ErrorKind.duplicateProduct pid) := by
  induction lines generalizing seen with
  | nil => exact Or.inl rfl
  | cons c cs ih =>
      have hc := hv c (List.mem_cons_self c cs)
      have hstock := ((validateLine_none_iff l t c).mp hc).2.2.2
      by_cases hmem : c.productId ∈ seen
      · exact Or.inr ⟨c.productId, by simp [viewStage, hmem]⟩
      · have : viewStage l t (c :: cs) seen = viewStage l t cs (c.productId :: seen) := by
          simp [viewStage, hmem, hstock]
        rw [this]
        exact ih (fun x hx => hv x (List.mem_cons_of_mem c hx)) (c.productId :: seen)

/-- Under all-lines-accepted formset validation, the view-level loop passes
exactly when no product repeats in the batch or in the already-seen set. -/
theorem viewStage_none_iff (l : Ledger) (t : TransType) (lines : List CandidateLine)
    (hv : ∀ c ∈ lines, validateLine l t c = none) (seen : List Nat) :
    viewStage l t lines seen = none ↔
      (lines.map (·.productId)).Nodup ∧ ∀ c ∈ lines, c.productId ∉ seen := by
  induction lines generalizing seen with
  | nil => simp [viewStage]
  | cons c cs ih =>
      have hc := hv c (List.mem_cons_self c cs)
      have hcs := fun x hx => hv x (List.mem_cons_of_mem c hx)
      have hstock := ((validateLine_none_iff l t c).mp hc).2.2.2
      by_cases hmem : c.productId ∈ seen
      · constructor
        · intro h
          simp [viewStage, hmem] at h
        · intro h
          exact absurd hmem (h.2 c (List.mem_cons_self c cs))
      · have hrw : viewStage l t (c :: cs) seen = viewStage l t cs (c.productId :: seen) := by
          simp [viewStage, hmem, hstock]
        rw [hrw, ih hcs (c.productId :: seen)]
        simp only [List.map_cons, List.nodup_cons, List.mem_cons, List.mem_map]
        constructor
        · rintro ⟨hnd, hall⟩
          refine ⟨⟨?_, hnd⟩, ?_⟩
          · rintro ⟨x, hx, hxc⟩
            exact (hall x hx) (Or.inl hxc)
          · intro x hx
            rcases hx with hx | hx
            · subst hx
              exact hmem
            · intro hxs
              exact (hall x hx) (Or.inr hxs)
        · rintro ⟨⟨hnotin, hnd⟩, hall⟩
          refine ⟨hnd, ?_⟩
          intro x hx
          intro hmem2
          rcases hmem2 with h | h
          · exact hnotin ⟨x, hx, h⟩
          · exact (hall x (Or.inr hx)) h

/-- Inversion of a successful transaction submission: non-empty batch,
every line accepted by the formset, no duplicated product, and the result
is exactly the committed store. -/
theorem createTransaction_ok_iff (l : Ledger) (t : TransType) (lines : List CandidateLine)
    (l2 : Ledger) :
    createTransaction l t lines = Except.ok l2 ↔
      lines ≠ [] ∧ (∀ c ∈ lines, validateLine l t c = none) ∧
        (lines.map (·.productId)).Nodup ∧ l2 = commitTrans l t lines := by
  unfold createTransaction firstLineError
  by_cases he : lines.isEmpty
  · rw [if_pos he]
    simp [List.isEmpty_iff.mp he]
  · rw [if_neg he]
    have hne : lines ≠ [] := by
      intro h
      exact he (by simp [h])
    cases hfs : lines.findSome? (validateLine l t) with
    | some e =>
        simp only [reduceCtorEq, false_iff]
        intro h
        have : lines.findSome? (validateLine l t) = none :=
          List.findSome?_eq_none_iff.mpr h.2.1
        rw [this] at hfs
        cases hfs
    | none =>
        have hv : ∀ c ∈ lines, validateLine l t c = none :=
          List.findSome?_eq_none_iff.mp hfs
        cases hvs : viewStage l t lines [] with
        | some e =>
            simp only [reduceCtorEq, false_iff]
            intro h
            have : viewStage l t lines [] = none := by
              rw [viewStage_none_iff l t lines hv []]
              exact ⟨h.2.2.1, by simp⟩
            rw [this] at hvs
            cases hvs
        | none =>
            have hnd : (lines.map (·.productId)).Nodup :=
              ((viewStage_none_iff l t lines hv []).mp hvs).1
            simp only [Except.ok.injEq]
            constructor
            · intro h
              exact ⟨hne, hv, hnd, h.symm⟩
            · intro h
              exact h.2.2.2.symm

/-- Evaluation of a single-line submission through both validation stages. -/
theorem createTransaction_singleton (l : Ledger) (t : TransType) (c : CandidateLine) :
    createTransaction l t [c] =
      (match validateLine l t c with
        | some e => Except.error e
        | none => Except.ok (commitTrans l t [c])) := by
  unfold createTransaction firstLineError
  cases hv : validateLine l t c with
  | some e => simp [List.findSome?, hv]
  | none =>
      have hstock := ((validateLine_none_iff l t c).mp hv).2.2.2
      simp [List.findSome?, hv, viewStage, hstock]

/-- C2: against a product with 5 units on hand, an OUT request of 6 fails
with the insufficient-stock error carrying available 5 and requested 6 and
persists nothing; an OUT request of 5 succeeds and leaves stock 0; and in
general a single-line OUT request of a positive quantity is rejected for
insufficient stock exactly when the replayed stock is below the quantity. -/
theorem c2_out_stock_enforcement (l : Ledger) (p : Product) (hfk : FKOk l)
    (hp : p ∈ l.products) (ha : p.isActive = true) (hs : currentStock l p.id = 5) :
    createTransaction l TransType.OUT [⟨p.id, 6, none⟩] =
        Except.error (ErrorKind.insufficientStock p.id 5 6) ∧
      runOp l (Op.newTransaction TransType.OUT [⟨p.id, 6, none⟩]) = l ∧
      (∃ l2, createTransaction l TransType.OUT [⟨p.id, 5, none⟩] = Except.ok l2 ∧
        currentStock l2 p.id = 0) ∧
      (∀ q : Int, 0 < q →
        ((∃ a r, createTransaction l TransType.OUT [⟨p.id, q, none⟩] =
            Except.error (ErrorKind.insufficientStock p.id a r)) ↔
          currentStock l p.id < q)) := by
  have hactive : isActiveProduct l p.id = true := by
    unfold isActiveProduct
    rw [List.any_eq_true]
    exact ⟨p, hp, by simp [ha]⟩
  have hval : ∀ q : Int, 0 < q →
      validateLine l TransType.OUT ⟨p.id, q, none⟩ =
        (if currentStock l p.id < q then
          some (ErrorKind.insufficientStock p.id (currentStock l p.id) q) else none) := by
    intro q hq
    unfold validateLine
    rw [if_neg (not_not_intro hactive), if_neg (by simp; omega), if_neg (by simp [priceNeg])]
    by_cases hlt : currentStock l p.id < q
    · rw [if_pos ⟨rfl, hlt⟩, if_pos hlt]
    · rw [if_neg (fun hcon => hlt hcon.2), if_neg hlt]
  have h6 : createTransaction l TransType.OUT [⟨p.id, 6, none⟩] =
      Except.error (ErrorKind.insufficientStock p.id 5 6) := by
    rw [createTransaction_singleton, hval 6 (by omega)]
    rw [if_pos (by omega), hs]
  refine ⟨h6, ?_, ?_, ?_⟩
  · simp only [runOp, h6]
  · have hv5 : validateLine l TransType.OUT ⟨p.id, 5, none⟩ = none := by
      rw [hval 5 (by omega), if_neg (by omega)]
    refine ⟨commitTrans l TransType.OUT [⟨p.id, 5, none⟩], ?_, ?_⟩
    · rw [createTransaction_singleton, hv5]
    · rw [currentStock_commit l TransType.OUT _ hfk p.id, hs]
      simp [batchDelta, lineDelta]
  · intro q hq
    constructor
    · rintro ⟨a, r, herr⟩
      rw [createTransaction_singleton, hval q hq] at herr
      by_cases hlt : currentStock l p.id < q
      · exact hlt
      · rw [if_neg hlt] at herr
        cases herr
    · intro hlt
      refine ⟨currentStock l p.id, q, ?_⟩
      rw [createTransaction_singleton, hval q hq, if_pos hlt]

/-- Witness for C2 at a concrete store with 5 units on hand. -/
theorem c2_witness :
    createTransaction sampleLedger5 TransType.OUT [⟨1, 6, none⟩] =
      Except.error (ErrorKind.insufficientStock 1 5 6) :=
  (c2_out_stock_enforcement sampleLedger5 sampleProduct (by unfold FKOk; decide)
    (by decide) rfl (by decide)).1

/-- C3: a transaction submission that fails leaves the store exactly as it
was: no header, no line item, and no stock movement is visible to any
subsequent read. -/
theorem c3_failed_submission_atomic (l : Ledger) (t : TransType)
    (lines : List CandidateLine) (e : ErrorKind)
    (h : createTransaction l t lines = Except.error e) :
    runOp l (Op.newTransaction t lines) = l ∧
      (runOp l (Op.newTransaction t lines)).transactions = l.transactions ∧
      (runOp l (Op.newTransaction t lines)).details = l.details ∧
      (∀ pid, currentStock (runOp l (Op.newTransaction t lines)) pid = currentStock l pid) := by
  have hrun : runOp l (Op.newTransaction t lines) = l := by
    simp only [runOp, h]
  exact ⟨hrun, by rw [hrun], by rw [hrun], fun pid => by rw [hrun]⟩

/-- Witness for C3 at a concrete failing submission. -/
theorem c3_witness :
    runOp sampleLedger5 (Op.newTransaction TransType.OUT [⟨1, 6, none⟩]) = sampleLedger5 :=
  (c3_failed_submission_atomic sampleLedger5 TransType.OUT [⟨1, 6, none⟩]
    (ErrorKind.insufficientStock 1 5 6) rfl).1

/-- C5: for an OUT batch whose lines all pass the per-line catalog,
quantity and price checks and repeat no product, the submission succeeds
exactly when every line's quantity is covered by the stock replayed from
the ledger as of the start of validation — the uncommitted batch itself
never reduces the stock any of its lines is checked against. -/
theorem c5_out_lines_checked_against_baseline (l : Ledger) (lines : List CandidateLine)
    (hne : lines ≠ [])
    (hact : ∀ c ∈ lines, isActiveProduct l c.productId = true)
    (hq : ∀ c ∈ lines, 0 < c.quantity)
    (hpr : ∀ c ∈ lines, priceNeg c.unitPrice = false)
    (hnd : (lines.map (·.productId)).Nodup) :
    (∃ l2, createTransaction l TransType.OUT lines = Except.ok l2) ↔
      ∀ c ∈ lines, c.quantity ≤ currentStock l c.productId := by
  constructor
  · rintro ⟨l2, hok⟩
    obtain ⟨-, hv, -, -⟩ := (createTransaction_ok_iff l TransType.OUT lines l2).mp hok
    intro c hc
    have hnc := ((validateLine_none_iff l TransType.OUT c).mp (hv c hc)).2.2.2
    by_contra hlt
    exact hnc ⟨rfl, by omega⟩
  · intro hall
    refine ⟨commitTrans l TransType.OUT lines,
      (createTransaction_ok_iff l TransType.OUT lines _).mpr ⟨hne, ?_, hnd, rfl⟩⟩
    intro c hc
    refine (validateLine_none_iff l TransType.OUT c).mpr
      ⟨hact c hc, hq c hc, hpr c hc, ?_⟩
    rintro ⟨-, hlt⟩
    exact absurd hlt (not_lt.mpr (hall c hc))

/-- A store with two products, stocked 5 and 7 by one IN movement. -/
def sampleLedgerTwo : Ledger :=
  ⟨[⟨1, "Widget", true⟩, ⟨2, "Gadget", true⟩], [⟨1, TransType.IN⟩],
    [⟨1, 1, 5, none⟩, ⟨2, 1, 7, none⟩]⟩

/-- A two-line OUT batch covered by the baseline stock. -/
def sampleBatch : List CandidateLine := [⟨1, 2, none⟩, ⟨2, 7, none⟩]

/-- Witness for C5 at a concrete two-line OUT batch. -/
theorem c5_witness :
    ∃ l2, createTransaction sampleLedgerTwo TransType.OUT sampleBatch = Except.ok l2 :=
  (c5_out_lines_checked_against_baseline sampleLedgerTwo sampleBatch (by decide) (by decide)
    (by decide) (by decide) (by decide)).mpr (by decide)

/-! Batch contribution lemmas. -/

/-- A batch in which a product does not occur contributes nothing to it. -/
theorem batchDelta_zero (t : TransType) (pid : Nat) (lines : List CandidateLine)
    (h : ∀ c ∈ lines, c.productId ≠ pid) : batchDelta t lines pid = 0 := by
  unfold batchDelta
  apply List.sum_eq_zero
  intro x hx
  obtain ⟨c, hc, rfl⟩ := List.mem_map.mp hx
  simp [lineDelta, h c hc]

/-- In a batch without repeated products, a product's contribution is
either zero or that of its unique line. -/
theorem batchDelta_nodup_cases (t : TransType) (pid : Nat) :
    ∀ lines : List CandidateLine, (lines.map (·.productId)).Nodup →
      batchDelta t lines pid = 0 ∨
        ∃ c ∈ lines, c.productId = pid ∧ batchDelta t lines pid = lineDelta t pid c := by
  intro lines
  induction lines with
  | nil => exact fun _ => Or.inl (by simp [batchDelta])
  | cons c cs ih =>
      intro hnd
      rw [List.map_cons, List.nodup_cons] at hnd
      have hbd : batchDelta t (c :: cs) pid = lineDelta t pid c + batchDelta t cs pid := by
        simp [batchDelta]
      by_cases hp : c.productId = pid
      · have hrest : ∀ x ∈ cs, x.productId ≠ pid := by
          intro x hx hxp
          exact hnd.1 (List.mem_map.mpr ⟨x, hx, hxp.trans hp.symm⟩)
        exact Or.inr ⟨c, List.mem_cons_self c cs, hp,
          by rw [hbd, batchDelta_zero t pid cs hrest, add_zero]⟩
      · have hc0 : lineDelta t pid c = 0 := by simp [lineDelta, hp]
        rcases ih hnd.2 with h0 | ⟨x, hx, hxp, heq⟩
        · left
          rw [hbd, hc0, h0, add_zero]
        · exact Or.inr ⟨x, List.mem_cons_of_mem c hx, hxp, by rw [hbd, hc0, heq, zero_add]⟩

/-- An IN batch of positive quantities never decreases any stock. -/
theorem batchDelta_in_nonneg (pid : Nat) (lines : List CandidateLine)
    (h : ∀ c ∈ lines, 0 < c.quantity) : 0 ≤ batchDelta TransType.IN lines pid := by
  unfold batchDelta
  apply List.sum_nonneg
  intro x hx
  obtain ⟨c, hc, rfl⟩ := List.mem_map.mp hx
  unfold lineDelta
  by_cases hp : c.productId = pid
  · have := h c hc
    simp [hp]
    omega
  · simp [hp]

/-! Store invariant preservation. -/

/-- A validated, duplicate-free commit preserves foreign-key integrity,
pair uniqueness, and non-negative stock. -/
theorem inv_commitTrans (l : Ledger) (t : TransType) (lines : List CandidateLine)
    (hInv : Inv l) (hv : ∀ c ∈ lines, validateLine l t c = none)
    (hnd : (lines.map (·.productId)).Nodup) :
    Inv (commitTrans l t lines) := by
  obtain ⟨hfk, huniq, hnn⟩ := hInv
  refine ⟨?_, ?_, ?_⟩
  · intro d hd
    rcases List.mem_append.mp hd with hold | hnew
    · obtain ⟨tr, htr, hid⟩ := hfk d hold
      exact ⟨tr, List.mem_append_left _ htr, hid⟩
    · obtain ⟨c, hc, rfl⟩ := List.mem_map.mp hnew
      exact ⟨⟨freshTransId l, t⟩, List.mem_append_right _ (by simp), rfl⟩
  · unfold UniquePairs commitTrans
    rw [List.pairwise_append]
    refine ⟨huniq, ?_, ?_⟩
    · rw [List.pairwise_map]
      have hpw : lines.Pairwise (fun a b => a.productId ≠ b.productId) :=
        List.pairwise_map.mp hnd
      exact hpw.imp (fun h hcon => h hcon.1)
    · intro a ha b hb
      obtain ⟨c, hc, rfl⟩ := List.mem_map.mp hb
      obtain ⟨tr, htr, hid⟩ := hfk a ha
      rintro ⟨-, htid⟩
      have hlt := transId_lt_fresh l tr htr
      rw [hid, htid] at hlt
      exact Nat.lt_irrefl _ hlt
  · intro pid
    rw [currentStock_commit l t lines hfk pid]
    cases t with
    | IN =>
        have h1 : 0 ≤ batchDelta TransType.IN lines pid :=
          batchDelta_in_nonneg pid lines
            (fun c hc => ((validateLine_none_iff l TransType.IN c).mp (hv c hc)).2.1)
        have h2 := hnn pid
        omega
    | OUT =>
        rcases batchDelta_nodup_cases TransType.OUT pid lines hnd with h0 | ⟨c, hc, hp, heq⟩
        · have := hnn pid
          omega
        · have hvc := (validateLine_none_iff l TransType.OUT c).mp (hv c hc)
          have hstock : ¬ currentStock l c.productId < c.quantity := fun hlt =>
            hvc.2.2.2 ⟨rfl, hlt⟩
          have hld : lineDelta TransType.OUT pid c = -c.quantity := by simp [lineDelta, hp]
          rw [heq, hld]
          rw [hp] at hstock
          omega

/-- A successful product creation touches only the catalog table. -/
theorem createProduct_ok_fields (l : Ledger) (raw : String) (a : Bool) (l2 : Ledger)
    (h : createProduct l raw a = Except.ok l2) :
    l2.transactions = l.transactions ∧ l2.details = l.details := by
  unfold createProduct at h
  simp only at h
  split_ifs at h
  cases h
  exact ⟨rfl, rfl⟩

/-- The projection reads only the transaction and line-item tables. -/
theorem currentStock_fields (l1 l2 : Ledger) (ht : l1.transactions = l2.transactions)
    (hd : l1.details = l2.details) (pid : Nat) :
    currentStock l1 pid = currentStock l2 pid := by
  unfold currentStock
  rw [ht, hd]

/-- Every single write operation preserves the store invariants. -/
theorem inv_runOp (l : Ledger) (op : Op) (h : Inv l) : Inv (runOp l op) := by
  cases op with
  | newProduct raw a =>
      cases hcp : createProduct l raw a with
      | error e => simpa [runOp, hcp] using h
      | ok l2 =>
          obtain ⟨ht, hdet⟩ := createProduct_ok_fields l raw a l2 hcp
          have hrw : runOp l (Op.newProduct raw a) = l2 := by simp [runOp, hcp]
          rw [hrw]
          obtain ⟨hfk, hu, hn⟩ := h
          refine ⟨?_, ?_, ?_⟩
          · intro d hmem
            rw [hdet] at hmem
            obtain ⟨tr, htr, hid⟩ := hfk d hmem
            rw [← ht] at htr
            exact ⟨tr, htr, hid⟩
          · unfold UniquePairs
            rw [hdet]
            exact hu
          · intro pid
            rw [currentStock_fields l2 l ht hdet pid]
            exact hn pid
  | newTransaction t lines =>
      cases hct : createTransaction l t lines with
      | error e => simpa [runOp, hct] using h
      | ok l2 =>
          obtain ⟨hne, hv, hnd, hl2⟩ := (createTransaction_ok_iff l t lines l2).mp hct
          have hrw : runOp l (Op.newTransaction t lines) = l2 := by simp [runOp, hct]
          rw [hrw, hl2]
          exact inv_commitTrans l t lines ⟨‹Inv l›.1, ‹Inv l›.2.1, ‹Inv l›.2.2⟩ hv hnd

/-- Invariants hold along any operation sequence. -/
theorem inv_runOps (ops : List Op) : ∀ l : Ledger, Inv l → Inv (runOps l ops) := by
  induction ops with
  | nil => exact fun l h => h
  | cons op ops ih => exact fun l h => ih (runOp l op) (inv_runOp l op h)

/-- The empty store satisfies all invariants. -/
theorem inv_emptyLedger : Inv emptyLedger := by
  refine ⟨?_, ?_, ?_⟩
  · intro d hd
    simp [emptyLedger] at hd
  · exact List.Pairwise.nil
  · intro pid
    simp [currentStock, emptyLedger]

/-- Every reachable store satisfies all invariants. -/
theorem reachable_inv (l : Ledger) (h : Reachable l) : Inv l := by
  obtain ⟨ops, hops⟩ := h
  rw [← hops]
  exact inv_runOps ops emptyLedger inv_emptyLedger

/-- C4: in every store reachable by the application's own write
operations, no product's replayed stock is ever negative. -/
theorem c4_stock_never_negative (l : Ledger) (h : Reachable l) (pid : Nat) :
    0 ≤ currentStock l pid :=
  (reachable_inv l h).2.2 pid

/-- A concrete operation sequence: create a product, stock 5 in, take 3 out. -/
def sampleOps : List Op :=
  [Op.newProduct "Widget" true, Op.newTransaction TransType.IN [⟨1, 5, none⟩],
    Op.newTransaction TransType.OUT [⟨1, 3, none⟩]]

/-- The store reached by running the concrete operation sequence. -/
def sampleRun : Ledger := runOps emptyLedger sampleOps

/-- Witness for C4 at a concrete reachable store. -/
theorem c4_witness : 0 ≤ currentStock sampleRun 1 :=
  c4_stock_never_negative sampleRun ⟨sampleOps, rfl⟩ 1

/-- C6 (amended): every batch in which a product repeats is rejected and
persists nothing; when each line individually passes formset validation
the reported error is the duplicate-product error; and in every reachable
store a (product, transaction) pair occurs in at most one line item. -/
theorem c6_duplicate_product_rejection :
    (∀ (l : Ledger) (t : TransType) (lines : List CandidateLine),
        ¬ (lines.map (·.productId)).Nodup →
          (∃ e, createTransaction l t lines = Except.error e) ∧
            runOp l (Op.newTransaction t lines) = l) ∧
      (∀ (l : Ledger) (t : TransType) (lines : List CandidateLine),
        (∀ c ∈ lines, validateLine l t c = none) → ¬ (lines.map (·.productId)).Nodup →
          ∃ pid, createTransaction l t lines = Except.error (ErrorKind.duplicateProduct pid)) ∧
      (∀ l : Ledger, Reachable l → UniquePairs l) := by
  have herr : ∀ (l : Ledger) (t : TransType) (lines : List CandidateLine),
      ¬ (lines.map (·.productId)).Nodup →
        ∃ e, createTransaction l t lines = Except.error e := by
    intro l t lines hnd
    cases hct : createTransaction l t lines with
    | error e => exact ⟨e, rfl⟩
    | ok l2 => exact absurd ((createTransaction_ok_iff l t lines l2).mp hct).2.2.1 hnd
  refine ⟨?_, ?_, ?_⟩
  · intro l t lines hnd
    obtain ⟨e, he⟩ := herr l t lines hnd
    exact ⟨⟨e, he⟩, by simp [runOp, he]⟩
  · intro l t lines hv hnd
    have hne : lines ≠ [] := by
      rintro rfl
      exact hnd (by simp)
    have hemp : lines.isEmpty = false := by
      cases lines with
      | nil => exact absurd rfl hne
      | cons c cs => rfl
    have hfs : lines.findSome? (validateLine l t) = none :=
      List.findSome?_eq_none_iff.mpr hv
    rcases viewStage_none_or_dup l t lines hv [] with hnone | ⟨pid, hdup⟩
    · exact absurd ((viewStage_none_iff l t lines hv []).mp hnone).1 hnd
    · exact ⟨pid, by simp [createTransaction, firstLineError, hemp, hfs, hdup]⟩
  · intro l hr
    exact (reachable_inv l hr).2.1

/-- A batch repeating product 1, whose second line also has an invalid
quantity. -/
def dupLines : List CandidateLine := [⟨1, 3, none⟩, ⟨1, 0, none⟩]

/-- Counterexample to C6 as stated: this batch repeats product 1, yet the
submission is rejected with the invalid-quantity error of formset
validation, not the duplicate-product error. -/
theorem c6_counterexample :
    (dupLines.map (·.productId)) = [1, 1] ∧
      createTransaction sampleLedger5 TransType.IN dupLines =
        Except.error ErrorKind.invalidQuantity := ⟨rfl, rfl⟩

/-- Witness for C6 at a concrete duplicated batch whose lines each pass
formset validation. -/
theorem c6_witness :
    ∃ pid, createTransaction sampleLedger5 TransType.IN [⟨1, 2, none⟩, ⟨1, 3, none⟩] =
      Except.error (ErrorKind.duplicateProduct pid) :=
  c6_duplicate_product_rejection.2.1 sampleLedger5 TransType.IN
    [⟨1, 2, none⟩, ⟨1, 3, none⟩] (by decide) (by decide)

/-! Inventory grouping lemmas. -/

/-- Lookup on the empty accumulator. -/
theorem invLookup_nil (pid : Nat) : invLookup [] pid = 0 := rfl

/-- Lookup steps through one accumulator cell. -/
theorem invLookup_cons (k : Nat) (v : Int) (rest : List (Nat × Int)) (pid : Nat) :
    invLookup ((k, v) :: rest) pid = if k = pid then v else invLookup rest pid := by
  unfold invLookup
  rw [List.find?_cons]
  by_cases hk : k = pid
  · simp [hk]
  · simp [show (k == pid) = false from by simp [hk], hk]

/-- Accumulating into a key reads back as an increment on that key. -/
theorem invLookup_addToInv_self (inv : List (Nat × Int)) (pid : Nat) (q : Int) :
    invLookup (addToInv inv pid q) pid = invLookup inv pid + q := by
  induction inv with
  | nil => simp [addToInv, invLookup_cons, invLookup_nil]
  | cons kv rest ih =>
      obtain ⟨k, v⟩ := kv
      by_cases hk : k = pid
      · simp [addToInv, hk, invLookup_cons]
      · simp [addToInv, hk, invLookup_cons, ih]

/-- Accumulating into one key leaves every other key unchanged. -/
theorem invLookup_addToInv_other (inv : List (Nat × Int)) (pid : Nat) (q : Int)
    (pid2 : Nat) (h : pid2 ≠ pid) :
    invLookup (addToInv inv pid q) pid2 = invLookup inv pid2 := by
  induction inv with
  | nil =>
      have : ¬ pid = pid2 := fun he => h he.symm
      simp [addToInv, invLookup_cons, invLookup_nil, this]
  | cons kv rest ih =>
      obtain ⟨k, v⟩ := kv
      by_cases hk : k = pid
      · subst hk
        have : ¬ k = pid2 := fun he => h he.symm
        simp [addToInv, invLookup_cons, this]
      · simp [addToInv, hk, invLookup_cons, ih]

/-- Keys after an accumulation are the old keys plus the touched key. -/
theorem mem_keys_addToInv (inv : List (Nat × Int)) (pid : Nat) (q : Int) (pid2 : Nat) :
    pid2 ∈ (addToInv inv pid q).map (·.1) ↔ pid2 ∈ inv.map (·.1) ∨ pid2 = pid := by
  induction inv with
  | nil => simp [addToInv]
  | cons kv rest ih =>
      obtain ⟨k, v⟩ := kv
      by_cases hk : k = pid
      · subst hk
        simp [addToInv]
        tauto
      · simp [addToInv, hk, ih]
        tauto

/-- Accumulation keeps the keys duplicate-free. -/
theorem nodup_keys_addToInv (inv : List (Nat × Int)) (pid : Nat) (q : Int)
    (h : (inv.map (·.1)).Nodup) : ((addToInv inv pid q).map (·.1)).Nodup := by
  induction inv with
  | nil => simp [addToInv]
  | cons kv rest ih =>
      obtain ⟨k, v⟩ := kv
      rw [List.map_cons, List.nodup_cons] at h
      by_cases hk : k = pid
      · subst hk
        simpa [addToInv] using h
      · rw [show addToInv ((k, v) :: rest) pid q = (k, v) :: addToInv rest pid q from by
          simp [addToInv, hk]]
        rw [List.map_cons, List.nodup_cons]
        refine ⟨?_, ih h.2⟩
        rw [mem_keys_addToInv]
        rintro (hmem | heq)
        · exact h.1 hmem
        · exact hk heq


/-- Reading the grouping accumulator after a replay prefix gives the
accumulated value plus the prefix's filtered signed sum. -/
theorem invLookup_foldl (ts : List StockTrans) :
    ∀ (ds : List StockDetail) (inv : List (Nat × Int)) (pid : Nat),
      invLookup (ds.foldl (fun acc d => addToInv acc d.productId (signedQuantity ts d)) inv) pid =
        invLookup inv pid +
          ((ds.filter (fun d => d.productId == pid)).map (signedQuantity ts)).sum := by
  intro ds
  induction ds with
  | nil => intro inv pid; simp
  | cons d ds ih =>
      intro inv pid
      rw [List.foldl_cons, ih]
      by_cases hp : d.productId = pid
      · subst hp
        rw [invLookup_addToInv_self]
        simp [List.filter_cons]
        ring
      · rw [invLookup_addToInv_other inv d.productId (signedQuantity ts d) pid
          (fun he => hp he.symm)]
        simp [List.filter_cons, hp]

/-- The grouped dictionary reads back exactly the replayed stock. -/
theorem invLookup_buildInventory (l : Ledger) (pid : Nat) :
    invLookup (buildInventory l) pid = currentStock l pid := by
  unfold buildInventory
  rw [invLookup_foldl, currentStock_eq_sum]
  simp [invLookup_nil]

/-- A key appears after a replay prefix exactly when it was already there
or some prefix line item touches it. -/
theorem mem_keys_foldl (ts : List StockTrans) :
    ∀ (ds : List StockDetail) (inv : List (Nat × Int)) (pid : Nat),
      (pid ∈ (ds.foldl (fun acc d => addToInv acc d.productId (signedQuantity ts d)) inv).map
          (·.1)) ↔
        pid ∈ inv.map (·.1) ∨ ∃ d ∈ ds, d.productId = pid := by
  intro ds
  induction ds with
  | nil => intro inv pid; simp
  | cons d ds ih =>
      intro inv pid
      rw [List.foldl_cons, ih, mem_keys_addToInv]
      constructor
      · rintro ((hmem | heq) | ⟨x, hx, hxp⟩)
        · exact Or.inl hmem
        · exact Or.inr ⟨d, List.mem_cons_self d ds, heq.symm⟩
        · exact Or.inr ⟨x, List.mem_cons_of_mem d hx, hxp⟩
      · rintro (hmem | ⟨x, hx, hxp⟩)
        · exact Or.inl (Or.inl hmem)
        · rcases List.mem_cons.mp hx with heq | hmem2
          · subst heq
            exact Or.inl (Or.inr hxp.symm)
          · exact Or.inr ⟨x, hmem2, hxp⟩

/-- A product has a dictionary entry exactly when some line item references it. -/
theorem mem_keys_buildInventory (l : Ledger) (pid : Nat) :
    pid ∈ (buildInventory l).map (·.1) ↔ ∃ d ∈ l.details, d.productId = pid := by
  unfold buildInventory
  rw [mem_keys_foldl]
  simp

/-- The grouping loop keeps keys duplicate-free along any replay. -/
theorem nodup_keys_foldl (ts : List StockTrans) :
    ∀ (ds : List StockDetail) (inv : List (Nat × Int)), (inv.map (·.1)).Nodup →
      (((ds.foldl (fun acc d => addToInv acc d.productId (signedQuantity ts d)) inv).map
        (·.1))).Nodup := by
  intro ds
  induction ds with
  | nil => exact fun inv h => h
  | cons d ds ih =>
      intro inv h
      rw [List.foldl_cons]
      exact ih _ (nodup_keys_addToInv inv d.productId (signedQuantity ts d) h)

/-- One dictionary entry per product. -/
theorem nodup_keys_buildInventory (l : Ledger) :
    ((buildInventory l).map (·.1)).Nodup := by
  unfold buildInventory
  exact nodup_keys_foldl l.transactions l.details [] (by simp)

/-- With duplicate-free keys, a member cell reads back its own value. -/
theorem invLookup_of_mem (inv : List (Nat × Int)) (h : (inv.map (·.1)).Nodup)
    (kv : Nat × Int) (hm : kv ∈ inv) : invLookup inv kv.1 = kv.2 := by
  induction inv with
  | nil => cases hm
  | cons kv2 rest ih =>
      obtain ⟨k, v⟩ := kv2
      rw [List.map_cons, List.nodup_cons] at h
      rcases List.mem_cons.mp hm with heq | hmem
      · subst heq
        simp [invLookup_cons]
      · have hk : ¬ k = kv.1 := fun he => h.1 (List.mem_map.mpr ⟨kv, hmem, he.symm⟩)
        rw [invLookup_cons, if_neg hk]
        exact ih h.2 hmem

/-- C7 (amended): the materialized inventory is sorted by product name,
holds exactly one entry per product referenced by at least one line item
(products with no line items are absent), and each entry carries the
replayed stock and its threshold status. -/
theorem c7_inventory_shape (l : Ledger) :
    (fullInventory l).Pairwise (fun a b => a.prodName ≤ b.prodName) ∧
      (∀ e ∈ fullInventory l,
        e.quantity = currentStock l e.productId ∧ e.status = stockStatus e.quantity) ∧
      (∀ pid : Nat, (∃ e ∈ fullInventory l, e.productId = pid) ↔
        ∃ d ∈ l.details, d.productId = pid) ∧
      ((fullInventory l).map (·.productId)).Nodup := by
  have hperm : (fullInventory l).Perm ((buildInventory l).map (fun kv =>
      { productId := kv.1
        prodName := productName l kv.1
        quantity := kv.2
        status := stockStatus kv.2 : InventoryEntry })) :=
    List.mergeSort_perm _ _
  refine ⟨?_, ?_, ?_, ?_⟩
  · refine List.Pairwise.imp ?_ (List.sorted_mergeSort ?_ ?_ ((buildInventory l).map _))
    · intro a b hab
      exact of_decide_eq_true hab
    · intro a b c hab hbc
      exact decide_eq_true (le_trans (of_decide_eq_true hab) (of_decide_eq_true hbc))
    · intro a b
      rcases le_total a.prodName b.prodName with h | h
      · simp [h]
      · simp [h]
  · intro e he
    obtain ⟨kv, hkv, rfl⟩ := List.mem_map.mp (hperm.mem_iff.mp he)
    refine ⟨?_, rfl⟩
    show kv.2 = currentStock l kv.1
    rw [← invLookup_buildInventory l kv.1]
    exact (invLookup_of_mem (buildInventory l) (nodup_keys_buildInventory l) kv hkv).symm
  · intro pid
    constructor
    · rintro ⟨e, he, rfl⟩
      obtain ⟨kv, hkv, rfl⟩ := List.mem_map.mp (hperm.mem_iff.mp he)
      exact (mem_keys_buildInventory l kv.1).mp (List.mem_map.mpr ⟨kv, hkv, rfl⟩)
    · intro hd
      obtain ⟨kv, hkv, hk1⟩ :=
        List.mem_map.mp ((mem_keys_buildInventory l pid).mpr hd)
      refine ⟨{ productId := kv.1
                prodName := productName l kv.1
                quantity := kv.2
                status := stockStatus kv.2 }, ?_, hk1⟩
      exact hperm.mem_iff.mpr (List.mem_map.mpr ⟨kv, hkv, rfl⟩)
  · have hmapped : ((fullInventory l).map (·.productId)).Perm
        (((buildInventory l).map (fun kv =>
          { productId := kv.1
            prodName := productName l kv.1
            quantity := kv.2
            status := stockStatus kv.2 : InventoryEntry })).map (·.productId)) :=
      hperm.map _
    rw [hmapped.nodup_iff]
    rw [List.map_map]
    exact nodup_keys_buildInventory l

/-- A store holding one catalog row and no transactions at all. -/
def soloProductLedger : Ledger := ⟨[⟨1, "Widget", true⟩], [], []⟩

/-- Counterexample to C7 as stated: the store has a product, yet the
materialized inventory has no entry at all, instead of one entry per
product across all products. -/
theorem c7_counterexample :
    soloProductLedger.products.map (·.id) = [1] ∧ fullInventory soloProductLedger = [] :=
  ⟨rfl, by simp [fullInventory, buildInventory, soloProductLedger]⟩

/-- C8: product creation trims and title-cases the submitted name, rejects
a normalized name shorter than 2 characters, rejects a case-insensitive
duplicate, and otherwise persists the normalized name; concretely,
creating "  widget " stores "Widget" and a subsequent "WIDGET" fails as a
duplicate. -/
theorem c8_name_normalization :
    (∀ (l : Ledger) (raw : String) (a : Bool), (normalizeName raw).length < 2 →
        createProduct l raw a = Except.error ErrorKind.invalidName) ∧
      (∀ (l : Ledger) (raw : String) (a : Bool), ¬ (normalizeName raw).length < 2 →
        (∃ p ∈ l.products, lowerName p.prodName = lowerName (normalizeName raw)) →
        createProduct l raw a = Except.error ErrorKind.duplicateName) ∧
      (∀ (l : Ledger) (raw : String) (a : Bool) (l2 : Ledger),
        createProduct l raw a = Except.ok l2 →
          l2.products = l.products ++ [⟨freshProdId l, normalizeName raw, a⟩]) ∧
      (∃ l2 : Ledger, createProduct emptyLedger "  widget " true = Except.ok l2 ∧
        l2.products.map (·.prodName) = ["Widget"] ∧
        createProduct l2 "WIDGET" true = Except.error ErrorKind.duplicateName) := by
  refine ⟨?_, ?_, ?_, ?_⟩
  · intro l raw a h
    unfold createProduct
    simp only
    rw [if_pos h]
  · intro l raw a h hdup
    have hc : (l.products.any fun p => lowerName p.prodName == lowerName (normalizeName raw)) =
        true := by
      rw [List.any_eq_true]
      obtain ⟨p, hp, he⟩ := hdup
      exact ⟨p, hp, by simp [he]⟩
    unfold createProduct
    simp only
    rw [if_neg h, if_pos hc]
  · intro l raw a l2 h
    unfold createProduct at h
    simp only at h
    split_ifs at h
    cases h
    rfl
  · exact ⟨⟨[⟨1, "Widget", true⟩], [], []⟩, rfl, rfl, rfl⟩

/-- Witness for C8 at a concrete too-short name. -/
theorem c8_witness : createProduct emptyLedger "A" true = Except.error ErrorKind.invalidName :=
  c8_name_normalization.1 emptyLedger "A" true (by decide)

/-- Two stores agreeing on everything except the per-product active flags. -/
def SameUpToActive (l1 l2 : Ledger) : Prop :=
  l1.transactions = l2.transactions ∧ l1.details = l2.details ∧
    List.Forall₂ (fun p q => p.id = q.id ∧ p.prodName = q.prodName) l1.products l2.products

/-- Catalog rows matching on id and name resolve name lookups identically. -/
theorem find_pid_congr (ps qs : List Product)
    (h : List.Forall₂ (fun p q => p.id = q.id ∧ p.prodName = q.prodName) ps qs) (pid : Nat) :
    ((ps.find? (fun p => p.id == pid)).map (·.prodName)) =
      ((qs.find? (fun p => p.id == pid)).map (·.prodName)) := by
  induction h with
  | nil => rfl
  | @cons a b l1 l2 h1 h2 ih =>
      rw [List.find?_cons, List.find?_cons]
      by_cases hid : a.id = pid
      · have hb : b.id = pid := by
          rw [← h1.1]
          exact hid
        simp [hid, hb, h1.2]
      · have hb : ¬ b.id = pid := by
          rw [← h1.1]
          exact hid
        simp only [show (a.id == pid) = false from by simp [hid],
          show (b.id == pid) = false from by simp [hb]]
        exact ih

/-- Catalog rows matching on id resolve existence checks identically. -/
theorem any_pid_congr (ps qs : List Product)
    (h : List.Forall₂ (fun p q => p.id = q.id ∧ p.prodName = q.prodName) ps qs) (pid : Nat) :
    ps.any (fun p => p.id == pid) = qs.any (fun p => p.id == pid) := by
  induction h with
  | nil => rfl
  | cons h1 h2 ih => simp [List.any_cons, h1.1, ih]

/-- C10: stock derivation ignores the active flags — two stores differing
only in per-product active flags replay identical stocks and materialize
identical inventories and per-product stock views; the flags matter only
in that a line naming an inactive (or unknown) product can never be part
of a successful transaction submission. -/
theorem c10_active_flag_independence (l1 l2 : Ledger) (h : SameUpToActive l1 l2) :
    (∀ pid, currentStock l1 pid = currentStock l2 pid) ∧
      fullInventory l1 = fullInventory l2 ∧
      (∀ pid, getProductStock l1 pid = getProductStock l2 pid) ∧
      (∀ (t : TransType) (lines : List CandidateLine) (c : CandidateLine) (l3 : Ledger),
        c ∈ lines → isActiveProduct l1 c.productId = false →
          createTransaction l1 t lines ≠ Except.ok l3) := by
  obtain ⟨ht, hd, hp⟩ := h
  have hstock : ∀ pid, currentStock l1 pid = currentStock l2 pid :=
    fun pid => currentStock_fields l1 l2 ht hd pid
  have hname : ∀ pid, productName l1 pid = productName l2 pid := by
    intro pid
    unfold productName
    rw [find_pid_congr l1.products l2.products hp pid]
  have hbuild : buildInventory l1 = buildInventory l2 := by
    unfold buildInventory
    rw [ht, hd]
  refine ⟨hstock, ?_, ?_, ?_⟩
  · unfold fullInventory
    rw [hbuild]
    congr 1
    apply List.map_congr_left
    intro kv hkv
    rw [hname kv.1]
  · intro pid
    unfold getProductStock
    rw [any_pid_congr l1.products l2.products hp pid, hstock pid]
  · intro t lines c l3 hc hact hok
    obtain ⟨-, hv, -, -⟩ := (createTransaction_ok_iff l1 t lines l3).mp hok
    have hone := ((validateLine_none_iff l1 t c).mp (hv c hc)).1
    rw [hact] at hone
    cases hone

/-- The sample store with its only product deactivated. -/
def sampleLedger5Inactive : Ledger :=
  ⟨[⟨1, "Widget", false⟩], [⟨1, TransType.IN⟩], [⟨1, 1, 5, none⟩]⟩

/-- Witness for C10 at a concrete pair of stores differing only in one
active flag. -/
theorem c10_witness : fullInventory sampleLedger5 = fullInventory sampleLedger5Inactive :=
  (c10_active_flag_independence sampleLedger5 sampleLedger5Inactive
    ⟨rfl, rfl, by simp [sampleLedger5, sampleLedger5Inactive, sampleProduct]⟩).2.1

end StockMgmt
